import Mathlib

/-!
Shallow embedding of the two icon-container encoders of the Locanote
repository: `src/apps/desktop/create-icns.py` and
`src/apps/desktop/create-ico.py`.

Files are modelled as `List Nat` of byte values; a run of an encoder on a
list of already-read input buffers yields a `WriteResult`: `error` when a
`struct.error` exception escapes (Python `struct.unpack` on a slice whose
length differs from the format size, or `struct.pack` on an out-of-range
value), `nothingWritten` when the function returns before opening the
output file, and `wrote bs` when the output file is written with bytes
`bs`.
-/

namespace Locanote

/-- The canonical 8-byte PNG signature `\x89PNG\r\n\x1a\n`. -/
def pngSignature : List Nat := [137, 80, 78, 71, 13, 10, 26, 10]

/-- Python slice `data[a:b]` for `a ≤ b` on a byte buffer. -/
def slice (data : List Nat) (a b : Nat) : List Nat :=
  (data.drop a).take (b - a)

/-- The signature test `data[:8] == b'\x89PNG\r\n\x1a\n'` common to both
encoders. -/
def hasPngSig (data : List Nat) : Bool :=
  decide (slice data 0 8 = pngSignature)

/-- Python `struct.unpack('>I', bs)[0]`: requires exactly 4 bytes, else a
`struct.error` (modelled as `none`). -/
def unpackBE4 : List Nat → Option Nat
  | [b0, b1, b2, b3] => some (((b0 * 256 + b1) * 256 + b2) * 256 + b3)
  | _ => none

/-- Python `struct.pack('>I', n)`: 4 big-endian bytes, `struct.error` when
`n` is out of the unsigned 32-bit range. -/
def packBE4 (n : Nat) : Option (List Nat) :=
  if n < 4294967296 then
    some [n / 16777216 % 256, n / 65536 % 256, n / 256 % 256, n % 256]
  else none

/-- Python `struct.pack('<H', n)` (one little-endian 16-bit field). -/
def packLE2 (n : Nat) : Option (List Nat) :=
  if n < 65536 then some [n % 256, n / 256 % 256] else none

/-- Python `struct.pack('<I', n)` (one little-endian 32-bit field). -/
def packLE4 (n : Nat) : Option (List Nat) :=
  if n < 4294967296 then
    some [n % 256, n / 256 % 256, n / 65536 % 256, n / 16777216 % 256]
  else none

/-- Decoder for a little-endian 16-bit field (used in statements only). -/
def unpackLE2 : List Nat → Option Nat
  | [b0, b1] => some (b0 + b1 * 256)
  | _ => none

/-- Decoder for a little-endian 32-bit field (used in statements only). -/
def unpackLE4 : List Nat → Option Nat
  | [b0, b1, b2, b3] => some (b0 + b1 * 256 + b2 * 65536 + b3 * 16777216)
  | _ => none

/-- The 4-byte big-endian unsigned integer at byte offset `off` of a
buffer, read off the spec's words (out-of-range bytes read as 0). -/
def beU32At (d : List Nat) (off : Nat) : Nat :=
  ((d.getD off 0 * 256 + d.getD (off + 1) 0) * 256 + d.getD (off + 2) 0) * 256
    + d.getD (off + 3) 0

/-- ASCII bytes of `b'icns'`. -/
def icnsMagic : List Nat := [105, 99, 110, 115]

/-- ASCII bytes of `b'icp4'`. -/
def icp4 : List Nat := [105, 99, 112, 52]

/-- ASCII bytes of `b'icp5'`. -/
def icp5 : List Nat := [105, 99, 112, 53]

/-- ASCII bytes of `b'icp6'`. -/
def icp6 : List Nat := [105, 99, 112, 54]

/-- ASCII bytes of `b'ic07'`. -/
def ic07 : List Nat := [105, 99, 48, 55]

/-- ASCII bytes of `b'ic08'`. -/
def ic08 : List Nat := [105, 99, 48, 56]

/-- ASCII bytes of `b'ic09'`. -/
def ic09 : List Nat := [105, 99, 48, 57]

/-- ASCII bytes of `b'ic10'`. -/
def ic10 : List Nat := [105, 99, 49, 48]

/-- The `icon_types` dictionary lookup `icon_types.get(width, b'ic09')` of
`create-icns.py`. -/
def icon_types (width : Nat) : List Nat :=
  if width = 16 then icp4
  else if width = 32 then icp5
  else if width = 48 then icp6
  else if width = 128 then ic07
  else if width = 256 then ic08
  else if width = 512 then ic09
  else if width = 1024 then ic10
  else ic09

/-- Outcome of one encoder run on the output file. -/
inductive WriteResult where
  | error : WriteResult
  | nothingWritten : WriteResult
  | wrote : List Nat → WriteResult
  deriving DecidableEq, Repr

/-- The entry-collection loop of `create_icns`: accumulates the entry list
and `total_size` (seeded with the 8-byte header size); a buffer whose
first 8 bytes are not the PNG signature is skipped; a passing buffer has
its width unpacked from bytes 16..19 (a `struct.error` propagates as
`none`). -/
def buildIcnsEntries : List (List Nat) → Option (List (List Nat) × Nat)
  | [] => some ([], 8)
  | data :: rest =>
      if hasPngSig data then do
        let width ← unpackBE4 (slice data 16 20)
        let icon_type := icon_types width
        let entry_size := 8 + data.length
        let sizeBytes ← packBE4 entry_size
        let (entries, total_size) ← buildIcnsEntries rest
        some ((icon_type ++ sizeBytes ++ data) :: entries,
              entry_size + total_size)
      else buildIcnsEntries rest

/-- `create_icns`, on the byte contents of its input files: writes the
`icns` magic, the big-endian `total_size`, then the entries in order. -/
def create_icns (png_files : List (List Nat)) : WriteResult :=
  match buildIcnsEntries png_files with
  | none => .error
  | some (entries, total_size) =>
      match packBE4 total_size with
      | none => .error
      | some totalBytes => .wrote (icnsMagic ++ totalBytes ++ entries.flatten)

/-- The dimension extraction of `create_ico`: widths from bytes 16..19 and
heights from bytes 20..23, both big-endian. -/
def pngDims (data : List Nat) : Option (Nat × Nat) := do
  let w ← unpackBE4 (slice data 16 20)
  let h ← unpackBE4 (slice data 20 24)
  some (w, h)

/-- The image-collection loop of `create_ico`: keeps `(w, h, data)` for
each buffer passing the signature test. -/
def buildIcoImages : List (List Nat) → Option (List (Nat × Nat × List Nat))
  | [] => some []
  | data :: rest =>
      if hasPngSig data then do
        let wh ← pngDims data
        let images ← buildIcoImages rest
        some ((wh.1, wh.2, data) :: images)
      else buildIcoImages rest

/-- One ICO directory entry,
`struct.pack('<BBBBHHII', w, h, 0, 0, 1, 32, size, offset)` with
`w = width if width < 256 else 0` and likewise for `h`. -/
def icoEntry (width height size offset : Nat) : Option (List Nat) := do
  let w := if width < 256 then width else 0
  let h := if height < 256 then height else 0
  let sizeBytes ← packLE4 size
  let offsetBytes ← packLE4 offset
  some ([w, h, 0, 0, 1, 0, 32, 0] ++ sizeBytes ++ offsetBytes)

/-- The directory/data loop of `create_ico`: builds the concatenated
directory entries and the concatenated data block, threading the running
`offset`. -/
def buildIcoDir (offset : Nat) :
    List (Nat × Nat × List Nat) → Option (List Nat × List Nat)
  | [] => some ([], [])
  | (width, height, img_data) :: rest => do
      let entry ← icoEntry width height img_data.length offset
      let (entries, data_block) ← buildIcoDir (offset + img_data.length) rest
      some (entry ++ entries, img_data ++ data_block)

/-- `create_ico`, on the byte contents of its input files: returns without
writing when no image survives the filter; otherwise writes the 6-byte
header `struct.pack('<HHH', 0, 1, len(images))`, the directory entries,
then the data block. -/
def create_ico (png_files : List (List Nat)) : WriteResult :=
  match buildIcoImages png_files with
  | none => .error
  | some images =>
      if images.isEmpty then .nothingWritten
      else
        match packLE2 images.length with
        | none => .error
        | some countBytes =>
            match buildIcoDir (6 + images.length * 16) images with
            | none => .error
            | some (entries, data_block) =>
                .wrote ([0, 0, 1, 0] ++ countBytes ++ entries ++ data_block)

/-- The sublist of input buffers that pass the PNG-signature test, in
input order. -/
def retainedPngs (files : List (List Nat)) : List (List Nat) :=
  files.filter hasPngSig

/-- The ICNS entry built from one retained buffer, as a pure value. -/
def icnsEntryOf (d : List Nat) : List Nat :=
  icon_types ((unpackBE4 (slice d 16 20)).getD 0)
    ++ (packBE4 (8 + d.length)).getD [] ++ d

/-- The `(w, h, data)` triple `create_ico` keeps for one retained buffer,
as a pure value. -/
def icoImageOf (d : List Nat) : Nat × Nat × List Nat :=
  ((unpackBE4 (slice d 16 20)).getD 0, (unpackBE4 (slice d 20 24)).getD 0, d)

/-- One ICO directory entry as a pure byte list. -/
def icoEntryPure (width height size offset : Nat) : List Nat :=
  [if width < 256 then width else 0, if height < 256 then height else 0,
   0, 0, 1, 0, 32, 0]
  ++ [size % 256, size / 256 % 256, size / 65536 % 256, size / 16777216 % 256]
  ++ [offset % 256, offset / 256 % 256, offset / 65536 % 256,
      offset / 16777216 % 256]

/-- The concatenated ICO directory entries with accumulating offsets, as a
pure value. -/
def icoDirEntries (offset : Nat) : List (Nat × Nat × List Nat) → List Nat
  | [] => []
  | (w, h, d) :: rest =>
      icoEntryPure w h d.length offset ++ icoDirEntries (offset + d.length) rest

/-- Total byte length of the payloads of a list of retained images. -/
def sumLens (images : List (Nat × Nat × List Nat)) : Nat :=
  (images.map (fun t => t.2.2.length)).sum

/-- A minimal 24-byte PNG-like buffer of width and height `w`: signature,
IHDR chunk length and tag, then the two big-endian dimension fields. -/
def testPng (w : Nat) : List Nat :=
  pngSignature ++ [0, 0, 0, 13, 73, 72, 68, 82]
    ++ [w / 16777216 % 256, w / 65536 % 256, w / 256 % 256, w % 256]
    ++ [w / 16777216 % 256, w / 65536 % 256, w / 256 % 256, w % 256]

/-! ### Lemmas on slices and the packed-integer helpers -/

lemma getD_drop (l : List Nat) (n m : Nat) :
    (l.drop n).getD m 0 = l.getD (n + m) 0 := by
  simp [List.getD, List.getElem?_drop]

lemma slice_four (d : List Nat) (off : Nat) (h : off + 4 ≤ d.length) :
    slice d off (off + 4) =
      [d.getD off 0, d.getD (off + 1) 0, d.getD (off + 2) 0,
       d.getD (off + 3) 0] := by
  have h0 : d.getD (off + 0) 0 = (d.drop off).getD 0 0 := (getD_drop d off 0).symm
  have h1 : d.getD (off + 1) 0 = (d.drop off).getD 1 0 := (getD_drop d off 1).symm
  have h2 : d.getD (off + 2) 0 = (d.drop off).getD 2 0 := (getD_drop d off 2).symm
  have h3 : d.getD (off + 3) 0 = (d.drop off).getD 3 0 := (getD_drop d off 3).symm
  have hlen : 4 ≤ (d.drop off).length := by
    rw [List.length_drop]; omega
  rw [show d.getD off 0 = d.getD (off + 0) 0 by norm_num, h0, h1, h2, h3]
  unfold slice
  rw [show off + 4 - off = 4 by omega]
  revert hlen
  generalize d.drop off = e
  intro hlen
  match e, hlen with
  | b0 :: b1 :: b2 :: b3 :: rest, _ => rfl

lemma unpackBE4_slice (d : List Nat) (off k : Nat) (hk : k = off + 4)
    (h : off + 4 ≤ d.length) :
    unpackBE4 (slice d off k) = some (beU32At d off) := by
  subst hk
  rw [slice_four d off h]
  rfl

lemma packBE4_eq (n : Nat) (h : n < 4294967296) :
    packBE4 n =
      some [n / 16777216 % 256, n / 65536 % 256, n / 256 % 256, n % 256] := by
  simp [packBE4, h]

lemma packLE2_eq (n : Nat) (h : n < 65536) :
    packLE2 n = some [n % 256, n / 256 % 256] := by
  simp [packLE2, h]

lemma packLE4_eq (n : Nat) (h : n < 4294967296) :
    packLE4 n =
      some [n % 256, n / 256 % 256, n / 65536 % 256, n / 16777216 % 256] := by
  simp [packLE4, h]

lemma unpackBE4_packBE4 (n : Nat) (h : n < 4294967296) :
    unpackBE4 [n / 16777216 % 256, n / 65536 % 256, n / 256 % 256, n % 256] =
      some n := by
  simp only [unpackBE4, Option.some.injEq]
  omega

lemma unpackLE4_packLE4 (n : Nat) (h : n < 4294967296) :
    unpackLE4 [n % 256, n / 256 % 256, n / 65536 % 256, n / 16777216 % 256] =
      some n := by
  simp only [unpackLE4, Option.some.injEq]
  omega

lemma unpackLE2_packLE2 (n : Nat) (h : n < 65536) :
    unpackLE2 [n % 256, n / 256 % 256] = some n := by
  simp only [unpackLE2, Option.some.injEq]
  omega

lemma slice_first (a rest : List Nat) (j : Nat) (ha : a.length = j) :
    slice (a ++ rest) 0 j = a := by
  unfold slice
  rw [Nat.sub_zero, List.drop_zero, ← ha, List.take_left]

lemma slice_after (a b : List Nat) (i j : Nat) :
    slice (a ++ b) (a.length + i) (a.length + j) = slice b i j := by
  have h : a.length + j - (a.length + i) = j - i := by omega
  unfold slice
  rw [h, List.drop_append]

lemma slice_within (a b : List Nat) (i j : Nat) (h : j ≤ a.length) :
    slice (a ++ b) i j = slice a i j := by
  unfold slice
  rcases Nat.le_total i a.length with hi | hi
  · rw [List.drop_append_eq_append_drop, List.take_append_of_le_length]
    simp [List.length_drop]
    omega
  · rw [List.drop_append_eq_append_drop]
    have : a.drop i = [] := by
      rw [List.drop_eq_nil_iff]
      omega
    have hj : j - i = 0 := by omega
    simp [this, hj]

lemma icon_types_length (w : Nat) : (icon_types w).length = 4 := by
  unfold icon_types
  split_ifs <;> rfl

/-! ### Structural lemmas for the ICNS encoder -/

lemma retainedPngs_nil : retainedPngs [] = [] := rfl

lemma retainedPngs_cons_pos (d : List Nat) (rest : List (List Nat))
    (h : hasPngSig d = true) :
    retainedPngs (d :: rest) = d :: retainedPngs rest := by
  simp [retainedPngs, List.filter_cons, h]

lemma retainedPngs_cons_neg (d : List Nat) (rest : List (List Nat))
    (h : ¬ hasPngSig d = true) :
    retainedPngs (d :: rest) = retainedPngs rest := by
  simp [retainedPngs, List.filter_cons, h]

lemma buildIcnsEntries_eq (files : List (List Nat))
    (h : ∀ d ∈ files, hasPngSig d = true →
      20 ≤ d.length ∧ 8 + d.length < 4294967296) :
    buildIcnsEntries files =
      some ((retainedPngs files).map icnsEntryOf,
        8 + ((retainedPngs files).map (fun d => 8 + d.length)).sum) := by
  induction files with
  | nil => simp [buildIcnsEntries, retainedPngs_nil]
  | cons d rest ih =>
    have ihh := ih (fun x hx hsig => h x (List.mem_cons_of_mem d hx) hsig)
    by_cases hd : hasPngSig d = true
    · obtain ⟨h20, hsz⟩ := h d (List.mem_cons_self d rest) hd
      have hw : unpackBE4 (slice d 16 20) = some (beU32At d 16) :=
        unpackBE4_slice d 16 20 (by norm_num) (by omega)
      have hp := packBE4_eq (8 + d.length) hsz
      rw [retainedPngs_cons_pos d rest hd]
      simp only [buildIcnsEntries, hd, if_true, hw, hp, ihh, Option.bind_eq_bind,
        Option.some_bind, List.map_cons, List.sum_cons, Option.some.injEq,
        Prod.mk.injEq]
      constructor
      · simp [icnsEntryOf, hw, hp]
      · omega
    · rw [retainedPngs_cons_neg d rest hd]
      simp only [buildIcnsEntries, hd, if_false, Bool.false_eq_true]
      exact ihh

lemma buildIcnsEntries_filter (files : List (List Nat)) :
    buildIcnsEntries files = buildIcnsEntries (retainedPngs files) := by
  induction files with
  | nil => rfl
  | cons d rest ih =>
    by_cases hd : hasPngSig d = true
    · rw [retainedPngs_cons_pos d rest hd]
      simp only [buildIcnsEntries, hd, if_true]
      rw [ih]
    · rw [retainedPngs_cons_neg d rest hd]
      simp only [buildIcnsEntries, hd, if_false, Bool.false_eq_true]
      exact ih

lemma create_icns_eq (files : List (List Nat))
    (h : ∀ d ∈ files, hasPngSig d = true →
      20 ≤ d.length ∧ 8 + d.length < 4294967296)
    (ht : 8 + ((retainedPngs files).map (fun d => 8 + d.length)).sum
      < 4294967296) :
    create_icns files = .wrote (icnsMagic ++
      [(8 + ((retainedPngs files).map (fun d => 8 + d.length)).sum)
          / 16777216 % 256,
       (8 + ((retainedPngs files).map (fun d => 8 + d.length)).sum)
          / 65536 % 256,
       (8 + ((retainedPngs files).map (fun d => 8 + d.length)).sum)
          / 256 % 256,
       (8 + ((retainedPngs files).map (fun d => 8 + d.length)).sum) % 256]
      ++ ((retainedPngs files).map icnsEntryOf).flatten) := by
  unfold create_icns
  rw [buildIcnsEntries_eq files h]
  dsimp only
  rw [packBE4_eq _ ht]

/-! ### Structural lemmas for the ICO encoder -/

lemma pngDims_eq (d : List Nat) (h : 24 ≤ d.length) :
    pngDims d = some (beU32At d 16, beU32At d 20) := by
  unfold pngDims
  rw [unpackBE4_slice d 16 20 (by norm_num) (by omega),
    unpackBE4_slice d 20 24 (by norm_num) (by omega)]
  rfl

lemma buildIcoImages_eq (files : List (List Nat))
    (h : ∀ d ∈ files, hasPngSig d = true → 24 ≤ d.length) :
    buildIcoImages files = some ((retainedPngs files).map icoImageOf) := by
  induction files with
  | nil => simp [buildIcoImages, retainedPngs_nil]
  | cons d rest ih =>
    have ihh := ih (fun x hx hsig => h x (List.mem_cons_of_mem d hx) hsig)
    by_cases hd : hasPngSig d = true
    · have h24 := h d (List.mem_cons_self d rest) hd
      have hw : unpackBE4 (slice d 16 20) = some (beU32At d 16) :=
        unpackBE4_slice d 16 20 (by norm_num) (by omega)
      have hh : unpackBE4 (slice d 20 24) = some (beU32At d 20) :=
        unpackBE4_slice d 20 24 (by norm_num) (by omega)
      rw [retainedPngs_cons_pos d rest hd]
      simp only [buildIcoImages, hd, if_true, pngDims_eq d h24, ihh,
        Option.bind_eq_bind, Option.some_bind, List.map_cons,
        Option.some.injEq, List.cons.injEq]
      simp [icoImageOf, hw, hh]
    · rw [retainedPngs_cons_neg d rest hd]
      simp only [buildIcoImages, hd, if_false, Bool.false_eq_true]
      exact ihh

lemma buildIcoImages_filter (files : List (List Nat)) :
    buildIcoImages files = buildIcoImages (retainedPngs files) := by
  induction files with
  | nil => rfl
  | cons d rest ih =>
    by_cases hd : hasPngSig d = true
    · rw [retainedPngs_cons_pos d rest hd]
      simp only [buildIcoImages, hd, if_true]
      rw [ih]
    · rw [retainedPngs_cons_neg d rest hd]
      simp only [buildIcoImages, hd, if_false, Bool.false_eq_true]
      exact ih

lemma icoEntryPure_length (w h s o : Nat) : (icoEntryPure w h s o).length = 16 := by
  simp [icoEntryPure]

lemma icoEntry_eq (w h s o : Nat) (hs : s < 4294967296) (ho : o < 4294967296) :
    icoEntry w h s o = some (icoEntryPure w h s o) := by
  unfold icoEntry icoEntryPure
  rw [packLE4_eq s hs, packLE4_eq o ho]
  rfl

lemma sumLens_nil : sumLens [] = 0 := rfl

lemma sumLens_cons (t : Nat × Nat × List Nat) (rest : List (Nat × Nat × List Nat)) :
    sumLens (t :: rest) = t.2.2.length + sumLens rest := by
  simp [sumLens]

lemma buildIcoDir_eq (images : List (Nat × Nat × List Nat)) (offset : Nat)
    (h : offset + sumLens images < 4294967296) :
    buildIcoDir offset images =
      some (icoDirEntries offset images,
        (images.map (fun t => t.2.2)).flatten) := by
  induction images generalizing offset with
  | nil => simp [buildIcoDir, icoDirEntries]
  | cons img rest ih =>
    obtain ⟨w, ht, d⟩ := img
    rw [sumLens_cons] at h
    dsimp only at h
    have hs : d.length < 4294967296 := by omega
    have ho : offset < 4294967296 := by omega
    have ih' := ih (offset + d.length) (by omega)
    simp only [buildIcoDir, icoEntry_eq w ht d.length offset hs ho, ih',
      icoDirEntries, Option.bind_eq_bind, Option.some_bind, List.map_cons,
      List.flatten_cons]

lemma icoDirEntries_length (images : List (Nat × Nat × List Nat)) (offset : Nat) :
    (icoDirEntries offset images).length = 16 * images.length := by
  induction images generalizing offset with
  | nil => simp [icoDirEntries]
  | cons img rest ih =>
    obtain ⟨w, h, d⟩ := img
    simp only [icoDirEntries, List.length_append, icoEntryPure_length,
      ih (offset + d.length), List.length_cons]
    omega

lemma sumLens_map_icoImageOf (R : List (List Nat)) :
    sumLens (R.map icoImageOf) = (R.map List.length).sum := by
  simp [sumLens, List.map_map]
  rfl

lemma payloads_map_icoImageOf (R : List (List Nat)) :
    (R.map icoImageOf).map (fun t => t.2.2) = R := by
  rw [List.map_map]
  exact List.map_id R

lemma create_ico_wrote (files : List (List Nat))
    (h24 : ∀ d ∈ files, hasPngSig d = true → 24 ≤ d.length)
    (hne : retainedPngs files ≠ [])
    (hcount : (retainedPngs files).length < 65536)
    (hsize : 6 + (retainedPngs files).length * 16
      + ((retainedPngs files).map List.length).sum < 4294967296) :
    create_ico files = .wrote
      ([0, 0, 1, 0, (retainedPngs files).length % 256,
            (retainedPngs files).length / 256 % 256]
        ++ (icoDirEntries (6 + (retainedPngs files).length * 16)
              ((retainedPngs files).map icoImageOf)
            ++ (retainedPngs files).flatten)) := by
  unfold create_ico
  rw [buildIcoImages_eq files h24]
  dsimp only
  have hempty : ((retainedPngs files).map icoImageOf).isEmpty = false := by
    rw [List.isEmpty_eq_false]
    simpa using hne
  rw [hempty]
  simp only [Bool.false_eq_true, if_false]
  rw [List.length_map, packLE2_eq _ hcount]
  dsimp only
  rw [buildIcoDir_eq _ _ (by rw [sumLens_map_icoImageOf]; omega)]
  dsimp only
  rw [payloads_map_icoImageOf]
  rfl

lemma slice_after_len (a b : List Nat) (n i j : Nat) (ha : a.length = n) :
    slice (a ++ b) (n + i) (n + j) = slice b i j := by
  subst ha
  exact slice_after a b i j

lemma drop_after_len (a b : List Nat) (n : Nat) (ha : a.length = n) :
    (a ++ b).drop n = b := by
  subst ha
  exact List.drop_left a b

lemma slice_after4 (a b : List Nat) (ha : a.length = 4) :
    slice (a ++ b) 4 8 = slice b 0 4 := by
  have h := slice_after_len a b 4 0 4 ha
  norm_num at h
  exact h

lemma slice48_append (a : List Nat) (t1 t2 t3 t4 : Nat) (rest : List Nat)
    (ha : a.length = 4) :
    slice (a ++ ([t1, t2, t3, t4] ++ rest)) 4 8 = [t1, t2, t3, t4] := by
  rw [slice_after4 a _ ha]
  exact slice_first [t1, t2, t3, t4] rest 4 rfl

lemma icoEntryPure_slice_planes (w h s o : Nat) :
    slice (icoEntryPure w h s o) 4 6 = [1, 0] := rfl

lemma icoEntryPure_slice_bpp (w h s o : Nat) :
    slice (icoEntryPure w h s o) 6 8 = [32, 0] := rfl

lemma icoEntryPure_slice_size (w h s o : Nat) :
    slice (icoEntryPure w h s o) 8 12 =
      [s % 256, s / 256 % 256, s / 65536 % 256, s / 16777216 % 256] := rfl

lemma icoEntryPure_slice_offset (w h s o : Nat) :
    slice (icoEntryPure w h s o) 12 16 =
      [o % 256, o / 256 % 256, o / 65536 % 256, o / 16777216 % 256] := rfl

lemma icoDirEntries_get (images : List (Nat × Nat × List Nat)) (offset k : Nat)
    (hk : k < images.length) :
    slice (icoDirEntries offset images) (16 * k) (16 * k + 16) =
      icoEntryPure (images.get ⟨k, hk⟩).1 (images.get ⟨k, hk⟩).2.1
        (images.get ⟨k, hk⟩).2.2.length
        (offset + sumLens (images.take k)) := by
  induction images generalizing offset k with
  | nil => exact absurd hk (by simp)
  | cons img rest ih =>
    obtain ⟨w, h, d⟩ := img
    cases k with
    | zero =>
      simp only [List.get, icoDirEntries, Nat.mul_zero, Nat.zero_add,
        List.take_zero, sumLens_nil, Nat.add_zero]
      exact slice_first _ _ 16 (icoEntryPure_length w h d.length offset)
    | succ k' =>
      have hk' : k' < rest.length := by simpa using hk
      simp only [icoDirEntries, List.get_cons_succ, List.take_succ_cons,
        sumLens_cons]
      have h16 : 16 * (k' + 1) = 16 + 16 * k' := by ring
      have h16' : 16 + 16 * k' + 16 = 16 + (16 * k' + 16) := by ring
      rw [h16, h16',
        slice_after_len _ _ 16 (16 * k') (16 * k' + 16)
          (icoEntryPure_length w h d.length offset),
        ih (offset + d.length) k' hk']
      congr 1
      omega

lemma flatten_slice (pays : List (List Nat)) (k : Nat) (hk : k < pays.length) :
    slice pays.flatten (((pays.take k).map List.length).sum)
      ((((pays.take k).map List.length).sum) + (pays.get ⟨k, hk⟩).length) =
      pays.get ⟨k, hk⟩ := by
  induction pays generalizing k with
  | nil => exact absurd hk (by simp)
  | cons p rest ih =>
    cases k with
    | zero =>
      simp only [List.take_zero, List.map_nil, List.sum_nil, List.flatten_cons,
        List.get, Nat.zero_add]
      exact slice_first p _ p.length rfl
    | succ k' =>
      have hk' : k' < rest.length := by simpa using hk
      simp only [List.take_succ_cons, List.map_cons, List.sum_cons,
        List.flatten_cons, List.get_cons_succ]
      rw [Nat.add_assoc,
        slice_after_len p rest.flatten p.length _ _ rfl]
      exact ih k' hk'

lemma slice_sub (l : List Nat) (a n i j : Nat) (hij : j ≤ n) :
    slice l (a + i) (a + j) = slice (slice l a (a + n)) i j := by
  unfold slice
  rw [Nat.add_sub_cancel_left, List.drop_take, List.drop_drop,
    List.take_take, Nat.min_eq_left (by omega : j - i ≤ n - i)]
  congr 1
  omega

lemma sumLens_append (a b : List (Nat × Nat × List Nat)) :
    sumLens (a ++ b) = sumLens a + sumLens b := by
  simp [sumLens]

lemma sumLens_take_le (l : List (Nat × Nat × List Nat)) (k : Nat) :
    sumLens (l.take k) ≤ sumLens l := by
  conv_rhs => rw [← List.take_append_drop k l]
  rw [sumLens_append]
  omega

lemma slice_header6 (h1 h2 h3 h4 h5 h6 : Nat) (b : List Nat) (i j : Nat) :
    slice ([h1, h2, h3, h4, h5, h6] ++ b) (6 + i) (6 + j) = slice b i j :=
  slice_after_len _ b 6 i j rfl

lemma icoDir_entry_slice (images : List (Nat × Nat × List Nat))
    (D : List Nat) (offset k : Nat) (hk : k < images.length) :
    slice (icoDirEntries offset images ++ D) (16 * k) (16 * k + 16) =
      icoEntryPure (images.get ⟨k, hk⟩).1 (images.get ⟨k, hk⟩).2.1
        (images.get ⟨k, hk⟩).2.2.length (offset + sumLens (images.take k)) := by
  rw [slice_within (icoDirEntries offset images) D (16 * k) (16 * k + 16)
    (by rw [icoDirEntries_length]; omega)]
  exact icoDirEntries_get images offset k hk

lemma icoDir_field_offset (images : List (Nat × Nat × List Nat))
    (D : List Nat) (offset k : Nat) (hk : k < images.length)
    (ho : offset + sumLens (images.take k) < 4294967296) :
    unpackLE4 (slice (icoDirEntries offset images ++ D)
        (16 * k + 12) (16 * k + 16)) =
      some (offset + sumLens (images.take k)) := by
  rw [slice_sub (icoDirEntries offset images ++ D) (16 * k) 16 12 16
    (by norm_num)]
  rw [icoDir_entry_slice images D offset k hk, icoEntryPure_slice_offset]
  exact unpackLE4_packLE4 _ ho

/-! ### Claim theorems -/

/-- C3 counterexample: on the empty input sequence `create_icns` neither
raises an error nor declines to write; it opens the output file and writes
it, contradicting the claimed `EmptyInput` failure. -/
theorem claim3_counterexample :
    create_icns [] ≠ WriteResult.error ∧
    create_icns [] ≠ WriteResult.nothingWritten := by
  decide

/-- C3 (amended): given an empty input sequence, the ICNS encoder does not
fail; it writes exactly the magic-plus-zero-entry stub, the 4 bytes `icns`
followed by the big-endian total length 8. -/
theorem claim3_amended_stub :
    create_icns [] = WriteResult.wrote [105, 99, 110, 115, 0, 0, 0, 8] := by
  decide

/-- C9 counterexample: on zero images `create_ico` does not write a
zero-image container (a 6-byte header with count 0 and nothing else). -/
theorem claim9_counterexample :
    create_ico [] ≠ WriteResult.wrote [0, 0, 1, 0, 0, 0] := by
  decide

/-- C9 (amended): given zero images, the ICO encoder returns before
opening the output file, so no bytes at all are written (and no error is
raised). -/
theorem claim9_amended :
    create_ico [] = WriteResult.nothingWritten := by
  decide

/-- C8: if every input buffer fails the PNG-signature test, so that zero
valid images survive the filter, the ICO encoder returns without writing
anything and without failing. -/
theorem claim8_ico_empty_no_write (files : List (List Nat))
    (h : ∀ d ∈ files, hasPngSig d = false) :
    create_ico files = WriteResult.nothingWritten := by
  have hr : retainedPngs files = [] := by
    simp only [retainedPngs, List.filter_eq_nil_iff]
    intro a ha
    simp [h a ha]
  unfold create_ico
  rw [buildIcoImages_eq files (fun d hd hsig => absurd hsig (by simp [h d hd]))]
  rw [hr]
  rfl

/-- C8 witness: a concrete run on a single non-PNG buffer. -/
theorem claim8_witness :
    (∀ d ∈ [[0, 1, 2]], hasPngSig d = false) ∧
    create_ico [[0, 1, 2]] = WriteResult.nothingWritten :=
  ⟨by decide, claim8_ico_empty_no_write [[0, 1, 2]] (by decide)⟩

/-- C10: a buffer whose first 8 bytes are the PNG signature but which is
shorter than the fixed header region read (20 bytes for the ICNS width
read, 24 bytes for the ICO width-and-height read) makes the encoder raise
a `struct.error` instead of being silently skipped; buffers reaching
exactly the threshold length do not raise. -/
theorem claim10_short_buffer_raises :
    create_icns [pngSignature] = WriteResult.error ∧
    create_ico [pngSignature] = WriteResult.error ∧
    create_icns [pngSignature ++ List.replicate 11 0] = WriteResult.error ∧
    create_icns [pngSignature ++ List.replicate 12 0] ≠ WriteResult.error ∧
    create_ico [pngSignature ++ List.replicate 15 0] = WriteResult.error ∧
    create_ico [pngSignature ++ List.replicate 16 0] ≠ WriteResult.error := by
  decide

/-- C4: the static width-to-type-code table maps 16, 32, 48, 128, 256,
512 and 1024 to `icp4`, `icp5`, `icp6`, `ic07`, `ic08`, `ic09` and `ic10`
respectively; every width outside the table (2000 among them) falls back
to `ic09`; and an unsupported width never makes the ICNS encoder fail. -/
theorem claim4_width_type_table :
    icon_types 16 = icp4 ∧ icon_types 32 = icp5 ∧ icon_types 48 = icp6 ∧
    icon_types 128 = ic07 ∧ icon_types 256 = ic08 ∧ icon_types 512 = ic09 ∧
    icon_types 1024 = ic10 ∧ icon_types 2000 = ic09 ∧
    (∀ w, w ≠ 16 → w ≠ 32 → w ≠ 48 → w ≠ 128 → w ≠ 256 → w ≠ 512 →
      w ≠ 1024 → icon_types w = ic09) ∧
    (∀ d, hasPngSig d = true → 20 ≤ d.length → d.length < 4294967280 →
      create_icns [d] ≠ WriteResult.error) := by
  refine ⟨by decide, by decide, by decide, by decide, by decide, by decide,
    by decide, by decide, ?_, ?_⟩
  · intro w h1 h2 h3 h4 h5 h6 h7
    simp [icon_types, h1, h2, h3, h4, h5, h6, h7]
  · intro d hsig h20 hlt
    have hr : retainedPngs [d] = [d] := by
      rw [retainedPngs_cons_pos d [] hsig, retainedPngs_nil]
    have hb : ∀ x ∈ [d], hasPngSig x = true →
        20 ≤ x.length ∧ 8 + x.length < 4294967296 := by
      intro x hx _
      rw [List.mem_singleton] at hx
      subst hx
      exact ⟨h20, by omega⟩
    have ht : 8 + ((retainedPngs [d]).map (fun x => 8 + x.length)).sum
        < 4294967296 := by
      rw [hr]
      simp only [List.map_cons, List.map_nil, List.sum_cons, List.sum_nil]
      omega
    rw [create_icns_eq [d] hb ht]
    simp

/-- C4 witness: the unsupported width 2000 falls back to `ic09` and a
width-2000 PNG buffer encodes without error. -/
theorem claim4_witness :
    ((2000 : Nat) ≠ 16 ∧ hasPngSig (testPng 2000) = true ∧
      20 ≤ (testPng 2000).length ∧ (testPng 2000).length < 4294967280) ∧
    icon_types 2000 = ic09 ∧
    create_icns [testPng 2000] ≠ WriteResult.error :=
  ⟨by decide, claim4_width_type_table.2.2.2.2.2.2.2.1,
    claim4_width_type_table.2.2.2.2.2.2.2.2.2 (testPng 2000)
      (by decide) (by decide) (by decide)⟩

/-- C5: both encoders behave on any input sequence exactly as on its
signature-filtered subsequence (so non-PNG buffers are skipped without
raising and all counts, lengths and offsets reflect only the retained
set); and two identical valid PNG inputs, which map to the same type code,
each produce their own verbatim entry, in order, with no deduplication. -/
theorem claim5_skip_and_order :
    (∀ files, create_icns files = create_icns (retainedPngs files)) ∧
    (∀ files, create_ico files = create_ico (retainedPngs files)) ∧
    (∀ d, hasPngSig d = true → 20 ≤ d.length → 8 + d.length < 4294967296 →
      buildIcnsEntries [d, d] =
        some ([icnsEntryOf d, icnsEntryOf d],
          8 + (8 + d.length) + (8 + d.length))) := by
  refine ⟨?_, ?_, ?_⟩
  · intro files
    unfold create_icns
    rw [buildIcnsEntries_filter files]
  · intro files
    unfold create_ico
    rw [buildIcoImages_filter files]
  · intro d hsig h20 hsz
    have hb : ∀ x ∈ [d, d], hasPngSig x = true →
        20 ≤ x.length ∧ 8 + x.length < 4294967296 := by
      intro x hx _
      simp only [List.mem_cons, List.not_mem_nil, or_false] at hx
      rcases hx with rfl | rfl <;> exact ⟨h20, hsz⟩
    have hr : retainedPngs [d, d] = [d, d] := by
      rw [retainedPngs_cons_pos _ _ hsig, retainedPngs_cons_pos _ _ hsig,
        retainedPngs_nil]
    rw [buildIcnsEntries_eq [d, d] hb, hr]
    simp only [List.map_cons, List.map_nil, List.sum_cons, List.sum_nil,
      Option.some.injEq, Prod.mk.injEq, and_true, true_and]
    omega

/-- C5 witness: a concrete duplicated valid PNG passes through twice. -/
theorem claim5_witness :
    (hasPngSig (testPng 32) = true ∧ 20 ≤ (testPng 32).length ∧
      8 + (testPng 32).length < 4294967296) ∧
    buildIcnsEntries [testPng 32, testPng 32] =
      some ([icnsEntryOf (testPng 32), icnsEntryOf (testPng 32)],
        8 + (8 + (testPng 32).length) + (8 + (testPng 32).length)) :=
  ⟨by decide, claim5_skip_and_order.2.2 (testPng 32)
    (by decide) (by decide) (by decide)⟩

/-- C6: on a buffer carrying the PNG signature (and long enough to hold
the fixed header region), the dimension extraction returns exactly the
big-endian 32-bit integers at byte offsets 16 and 20, with no further
parsing; a buffer failing the signature test is not processed further by
either encoder's loop. -/
theorem claim6_png_dims :
    (∀ d, slice d 0 8 = pngSignature → 24 ≤ d.length →
      pngDims d = some (beU32At d 16, beU32At d 20)) ∧
    (∀ d files, hasPngSig d = false →
      buildIcoImages (d :: files) = buildIcoImages files ∧
      buildIcnsEntries (d :: files) = buildIcnsEntries files) := by
  constructor
  · intro d _ h24
    exact pngDims_eq d h24
  · intro d files hd
    constructor
    · simp [buildIcoImages, hd]
    · simp [buildIcnsEntries, hd]

/-- C6 witness: a concrete 24-byte valid-signature buffer of width and
height 32. -/
theorem claim6_witness :
    (slice (testPng 32) 0 8 = pngSignature ∧ 24 ≤ (testPng 32).length) ∧
    pngDims (testPng 32) =
      some (beU32At (testPng 32) 16, beU32At (testPng 32) 20) :=
  ⟨by decide, claim6_png_dims.1 (testPng 32) (by decide) (by decide)⟩

/-- C1: for any input sequence with at least one PNG-signature buffer
(long enough for the width read, with in-range sizes), the ICNS encoder
writes the 4-byte magic `icns`, then a 4-byte big-endian total-length
field equal to 8 plus the sum of all entry lengths, then the entries in
order; and each entry's 4-byte big-endian declared-length field equals
8 plus the length of that entry's own PNG payload. -/
theorem claim1_icns_layout (files : List (List Nat))
    (hone : ∃ d ∈ files, hasPngSig d = true)
    (hbounds : ∀ d ∈ files, hasPngSig d = true →
      20 ≤ d.length ∧ 8 + d.length < 4294967296)
    (htotal : 8 + ((retainedPngs files).map (fun d => 8 + d.length)).sum
      < 4294967296) :
    ∃ out, create_icns files = WriteResult.wrote out ∧
      slice out 0 4 = icnsMagic ∧
      unpackBE4 (slice out 4 8) =
        some (8 + ((retainedPngs files).map (fun d => 8 + d.length)).sum) ∧
      out.drop 8 = ((retainedPngs files).map icnsEntryOf).flatten ∧
      ∀ d ∈ retainedPngs files,
        unpackBE4 (slice (icnsEntryOf d) 4 8) = some (8 + d.length) := by
  refine ⟨_, create_icns_eq files hbounds htotal, ?_, ?_, ?_, ?_⟩
  · rw [List.append_assoc]
    exact slice_first icnsMagic _ 4 rfl
  · rw [List.append_assoc, slice48_append icnsMagic _ _ _ _ _ rfl]
    exact unpackBE4_packBE4 _ htotal
  · exact drop_after_len _ _ 8 rfl
  · intro d hd
    have hdmem : d ∈ files ∧ hasPngSig d = true := by
      simpa [retainedPngs, List.mem_filter] using hd
    obtain ⟨h20, hsz⟩ := hbounds d hdmem.1 hdmem.2
    unfold icnsEntryOf
    rw [packBE4_eq _ hsz, Option.getD_some]
    rw [List.append_assoc, slice48_append (icon_types _) _ _ _ _ _
      (icon_types_length _)]
    exact unpackBE4_packBE4 _ hsz

/-- C1 witness: a concrete run on one 24-byte width-32 PNG buffer. -/
theorem claim1_witness :
    ((∃ d ∈ [testPng 32], hasPngSig d = true) ∧
     (∀ d ∈ [testPng 32], hasPngSig d = true →
       20 ≤ d.length ∧ 8 + d.length < 4294967296) ∧
     8 + ((retainedPngs [testPng 32]).map (fun d => 8 + d.length)).sum
       < 4294967296) ∧
    (∃ out, create_icns [testPng 32] = WriteResult.wrote out ∧
      slice out 0 4 = icnsMagic ∧
      unpackBE4 (slice out 4 8) =
        some (8 + ((retainedPngs [testPng 32]).map
          (fun d => 8 + d.length)).sum) ∧
      out.drop 8 = ((retainedPngs [testPng 32]).map icnsEntryOf).flatten ∧
      ∀ d ∈ retainedPngs [testPng 32],
        unpackBE4 (slice (icnsEntryOf d) 4 8) = some (8 + d.length)) :=
  ⟨⟨by decide, by decide, by decide⟩,
    claim1_icns_layout [testPng 32] (by decide) (by decide) (by decide)⟩

/-- C2: for any input yielding at least one valid PNG image (with
in-range counts and sizes), the ICO header has reserved 0, type 1 and
count equal to the number of retained images; the k-th directory entry's
32-bit data offset equals `6 + 16·N` plus the payload lengths of all
earlier entries; and the bytes of the output at that offset, for the
entry's length, equal the k-th retained payload bit-for-bit. -/
theorem claim2_ico_layout (files : List (List Nat))
    (h24 : ∀ d ∈ files, hasPngSig d = true → 24 ≤ d.length)
    (hne : retainedPngs files ≠ [])
    (hcount : (retainedPngs files).length < 65536)
    (hsize : 6 + (retainedPngs files).length * 16
      + ((retainedPngs files).map List.length).sum < 4294967296) :
    ∃ out, create_ico files = WriteResult.wrote out ∧
      slice out 0 2 = [0, 0] ∧
      slice out 2 4 = [1, 0] ∧
      unpackLE2 (slice out 4 6) = some ((retainedPngs files).length) ∧
      ∀ k (hk : k < (retainedPngs files).length),
        unpackLE4 (slice out (6 + 16 * k + 12) (6 + 16 * k + 16)) =
          some (6 + (retainedPngs files).length * 16
            + (((retainedPngs files).take k).map List.length).sum) ∧
        slice out
          (6 + (retainedPngs files).length * 16
            + (((retainedPngs files).take k).map List.length).sum)
          (6 + (retainedPngs files).length * 16
            + (((retainedPngs files).take k).map List.length).sum
            + ((retainedPngs files).get ⟨k, hk⟩).length) =
          (retainedPngs files).get ⟨k, hk⟩ := by
  refine ⟨_, create_ico_wrote files h24 hne hcount hsize, rfl, rfl, ?_, ?_⟩
  · exact unpackLE2_packLE2 _ hcount
  · intro k hk
    have hkN : k < ((retainedPngs files).map icoImageOf).length := by
      rw [List.length_map]
      exact hk
    have hsum_take :
        sumLens (((retainedPngs files).map icoImageOf).take k) =
          (((retainedPngs files).take k).map List.length).sum := by
      rw [← List.map_take, sumLens_map_icoImageOf]
    have htle := sumLens_take_le ((retainedPngs files).map icoImageOf) k
    rw [sumLens_map_icoImageOf] at htle
    constructor
    · have e1 : 6 + 16 * k + 12 = 6 + (16 * k + 12) := by ring
      have e2 : 6 + 16 * k + 16 = 6 + (16 * k + 16) := by ring
      rw [e1, e2, slice_header6]
      rw [icoDir_field_offset ((retainedPngs files).map icoImageOf)
        ((retainedPngs files).flatten)
        (6 + (retainedPngs files).length * 16) k hkN (by omega)]
      rw [hsum_take]
    · have e3 : 6 + (retainedPngs files).length * 16
          + (((retainedPngs files).take k).map List.length).sum =
          6 + ((retainedPngs files).length * 16
            + (((retainedPngs files).take k).map List.length).sum) := by
        ring
      have e4 : 6 + (retainedPngs files).length * 16
          + (((retainedPngs files).take k).map List.length).sum
          + ((retainedPngs files).get ⟨k, hk⟩).length =
          6 + ((retainedPngs files).length * 16
            + ((((retainedPngs files).take k).map List.length).sum
              + ((retainedPngs files).get ⟨k, hk⟩).length)) := by
        ring
      rw [e4, e3, slice_header6]
      have hp := slice_after_len
        (icoDirEntries (6 + (retainedPngs files).length * 16)
          ((retainedPngs files).map icoImageOf))
        ((retainedPngs files).flatten)
        ((retainedPngs files).length * 16)
        ((((retainedPngs files).take k).map List.length).sum)
        ((((retainedPngs files).take k).map List.length).sum
          + ((retainedPngs files).get ⟨k, hk⟩).length)
        (by rw [icoDirEntries_length, List.length_map]; ring)
      rw [hp]
      exact flatten_slice (retainedPngs files) k hk

/-- C2 witness: a concrete run on two 24-byte PNG buffers. -/
theorem claim2_witness :
    ((∀ d ∈ [testPng 32, testPng 300], hasPngSig d = true → 24 ≤ d.length) ∧
     retainedPngs [testPng 32, testPng 300] ≠ [] ∧
     (retainedPngs [testPng 32, testPng 300]).length < 65536 ∧
     6 + (retainedPngs [testPng 32, testPng 300]).length * 16
       + ((retainedPngs [testPng 32, testPng 300]).map List.length).sum
       < 4294967296) ∧
    (∃ out, create_ico [testPng 32, testPng 300] = WriteResult.wrote out ∧
      slice out 0 2 = [0, 0] ∧
      slice out 2 4 = [1, 0] ∧
      unpackLE2 (slice out 4 6) =
        some ((retainedPngs [testPng 32, testPng 300]).length) ∧
      ∀ k (hk : k < (retainedPngs [testPng 32, testPng 300]).length),
        unpackLE4 (slice out (6 + 16 * k + 12) (6 + 16 * k + 16)) =
          some (6 + (retainedPngs [testPng 32, testPng 300]).length * 16
            + (((retainedPngs [testPng 32, testPng 300]).take k).map
                List.length).sum) ∧
        slice out
          (6 + (retainedPngs [testPng 32, testPng 300]).length * 16
            + (((retainedPngs [testPng 32, testPng 300]).take k).map
                List.length).sum)
          (6 + (retainedPngs [testPng 32, testPng 300]).length * 16
            + (((retainedPngs [testPng 32, testPng 300]).take k).map
                List.length).sum
            + ((retainedPngs [testPng 32, testPng 300]).get ⟨k, hk⟩).length) =
          (retainedPngs [testPng 32, testPng 300]).get ⟨k, hk⟩) :=
  ⟨⟨by decide, by decide, by decide, by decide⟩,
    claim2_ico_layout [testPng 32, testPng 300]
      (by decide) (by decide) (by decide) (by decide)⟩

/-- C7: every ICO directory entry is exactly 16 bytes and encodes, in
little-endian order: a width byte that is 0 when the actual width is at
least 256 and the actual width otherwise, a height byte by the same rule,
color-palette byte 0, reserved byte 0, 16-bit color-planes 1, 16-bit
bits-per-pixel 32, a 32-bit data size equal to the payload length, and the
32-bit data offset; and the entries appear in retained order immediately
after the 6-byte header. -/
theorem claim7_ico_directory_entry :
    (∀ w h s o, s < 4294967296 → o < 4294967296 →
      icoEntry w h s o = some (icoEntryPure w h s o)) ∧
    (∀ w h s o,
      (icoEntryPure w h s o).length = 16 ∧
      (icoEntryPure w h s o).getD 0 0 = (if 256 ≤ w then 0 else w) ∧
      (icoEntryPure w h s o).getD 1 0 = (if 256 ≤ h then 0 else h) ∧
      (icoEntryPure w h s o).getD 2 0 = 0 ∧
      (icoEntryPure w h s o).getD 3 0 = 0 ∧
      unpackLE2 (slice (icoEntryPure w h s o) 4 6) = some 1 ∧
      unpackLE2 (slice (icoEntryPure w h s o) 6 8) = some 32 ∧
      (s < 4294967296 →
        unpackLE4 (slice (icoEntryPure w h s o) 8 12) = some s) ∧
      (o < 4294967296 →
        unpackLE4 (slice (icoEntryPure w h s o) 12 16) = some o)) ∧
    (∀ files, (∀ d ∈ files, hasPngSig d = true → 24 ≤ d.length) →
      retainedPngs files ≠ [] →
      (retainedPngs files).length < 65536 →
      6 + (retainedPngs files).length * 16
        + ((retainedPngs files).map List.length).sum < 4294967296 →
      ∃ out, create_ico files = WriteResult.wrote out ∧
        ∀ k (hk : k < (retainedPngs files).length),
          slice out (6 + 16 * k) (6 + 16 * k + 16) =
            icoEntryPure (beU32At ((retainedPngs files).get ⟨k, hk⟩) 16)
              (beU32At ((retainedPngs files).get ⟨k, hk⟩) 20)
              ((retainedPngs files).get ⟨k, hk⟩).length
              (6 + (retainedPngs files).length * 16
                + (((retainedPngs files).take k).map List.length).sum)) := by
  refine ⟨fun w h s o hs ho => icoEntry_eq w h s o hs ho, ?_, ?_⟩
  · intro w h s o
    refine ⟨icoEntryPure_length w h s o, ?_, ?_, rfl, rfl, ?_, ?_,
      fun hs => ?_, fun ho => ?_⟩
    · have hw : (icoEntryPure w h s o).getD 0 0 =
          (if w < 256 then w else 0) := rfl
      rw [hw]
      split_ifs <;> omega
    · have hh : (icoEntryPure w h s o).getD 1 0 =
          (if h < 256 then h else 0) := rfl
      rw [hh]
      split_ifs <;> omega
    · rw [icoEntryPure_slice_planes]
      rfl
    · rw [icoEntryPure_slice_bpp]
      rfl
    · rw [icoEntryPure_slice_size]
      exact unpackLE4_packLE4 s hs
    · rw [icoEntryPure_slice_offset]
      exact unpackLE4_packLE4 o ho
  · intro files h24 hne hcount hsize
    refine ⟨_, create_ico_wrote files h24 hne hcount hsize, ?_⟩
    intro k hk
    have hkN : k < ((retainedPngs files).map icoImageOf).length := by
      rw [List.length_map]
      exact hk
    have hsum_take :
        sumLens (((retainedPngs files).map icoImageOf).take k) =
          (((retainedPngs files).take k).map List.length).sum := by
      rw [← List.map_take, sumLens_map_icoImageOf]
    have e2 : 6 + 16 * k + 16 = 6 + (16 * k + 16) := by ring
    rw [e2, slice_header6]
    rw [icoDir_entry_slice ((retainedPngs files).map icoImageOf)
      ((retainedPngs files).flatten)
      (6 + (retainedPngs files).length * 16) k hkN]
    have hget : ((retainedPngs files).map icoImageOf).get ⟨k, hkN⟩ =
        icoImageOf ((retainedPngs files).get ⟨k, hk⟩) := by
      simp [List.get_eq_getElem, List.getElem_map]
    rw [hget, hsum_take]
    have hdmem : (retainedPngs files).get ⟨k, hk⟩ ∈ retainedPngs files :=
      List.get_mem _ _ _
    have hdf : (retainedPngs files).get ⟨k, hk⟩ ∈ files ∧
        hasPngSig ((retainedPngs files).get ⟨k, hk⟩) = true :=
      List.mem_filter.mp
        (show (retainedPngs files).get ⟨k, hk⟩ ∈ List.filter hasPngSig files
          from hdmem)
    have h24d := h24 _ hdf.1 hdf.2
    unfold icoImageOf
    dsimp only
    rw [unpackBE4_slice _ 16 20 (by norm_num) (by omega),
      unpackBE4_slice _ 20 24 (by norm_num) (by omega)]
    simp only [Option.getD_some]

/-- C7 witness: a concrete run on two 24-byte PNG buffers, one of width
300 exercising the width-byte clamping rule. -/
theorem claim7_witness :
    ((∀ d ∈ [testPng 32, testPng 300], hasPngSig d = true → 24 ≤ d.length) ∧
     retainedPngs [testPng 32, testPng 300] ≠ [] ∧
     (retainedPngs [testPng 32, testPng 300]).length < 65536 ∧
     6 + (retainedPngs [testPng 32, testPng 300]).length * 16
       + ((retainedPngs [testPng 32, testPng 300]).map List.length).sum
       < 4294967296) ∧
    (∃ out, create_ico [testPng 32, testPng 300] = WriteResult.wrote out ∧
      ∀ k (hk : k < (retainedPngs [testPng 32, testPng 300]).length),
        slice out (6 + 16 * k) (6 + 16 * k + 16) =
          icoEntryPure
            (beU32At ((retainedPngs [testPng 32, testPng 300]).get ⟨k, hk⟩) 16)
            (beU32At ((retainedPngs [testPng 32, testPng 300]).get ⟨k, hk⟩) 20)
            ((retainedPngs [testPng 32, testPng 300]).get ⟨k, hk⟩).length
            (6 + (retainedPngs [testPng 32, testPng 300]).length * 16
              + (((retainedPngs [testPng 32, testPng 300]).take k).map
                  List.length).sum)) :=
  ⟨⟨by decide, by decide, by decide, by decide⟩,
    claim7_ico_directory_entry.2.2 [testPng 32, testPng 300]
      (by decide) (by decide) (by decide) (by decide)⟩

end Locanote
